import Mathlib

/-!
Verification of the SVG freehand drawing tool (`script.js`).

The script is a single-threaded, event-driven stroke recorder:
`beginStroke` / `continueStroke` / `endStroke` handle pointer events,
`undoLast` / `clearAll` operate on the committed stroke history, and
`saveAsPng` exports the scene.  We embed the mutable module-level state
(`drawing`, `currentPath`, `currentPoints`, `strokeHistory`, the children of
the `#strokes` group) as an explicit `DrawState`, DOM `<path>` elements as
records carrying an identity and their attributes, and the SVG `d` attribute
as a list of path commands (`M`, `L`, `Q`).  Coordinates are rationals.
-/

namespace SvgDraw

/-- A 2D point in the logical (viewBox) coordinate space. -/
structure Point where
  x : ℚ
  y : ℚ
deriving DecidableEq, Repr

/-- The canvas element's on-screen bounding box (`getBoundingClientRect`). -/
structure Rect where
  left : ℚ
  top : ℚ
  width : ℚ
  height : ℚ
deriving DecidableEq, Repr

/-- The fields of a pointer event that the script reads. -/
structure PointerEvent where
  pointerType : String
  button : Int
  clientX : ℚ
  clientY : ℚ
deriving DecidableEq, Repr

/-- The environment a handler reads besides the event: the canvas bounding box
and the current values of the color and width controls. -/
structure Env where
  rect : Rect
  color : String
  width : String
deriving DecidableEq, Repr

/-- One command of an SVG path `d` attribute as the script builds it:
`M x y`, `L x y`, or `Q cx cy x y` (control point, then endpoint). -/
inductive PathCmd where
  | M (p : Point)
  | L (p : Point)
  | Q (c : Point) (e : Point)
deriving DecidableEq, Repr

/-- A `<path>` element in the `#strokes` group: a DOM identity plus the
attributes the script sets (`stroke`, `stroke-width`, `d`). -/
structure PathElem where
  id : ℕ
  stroke : String
  strokeWidth : String
  d : List PathCmd
deriving DecidableEq, Repr

/-- The module-level mutable state of the script: the `drawing` flag, the
active path (by identity), the recorded points of the active stroke, the
stroke history (identities of committed paths), the children of the
`#strokes` group in document order, and a fresh-identity counter standing for
DOM node allocation. -/
structure DrawState where
  drawing : Bool
  currentPath : Option ℕ
  currentPoints : List Point
  strokeHistory : List ℕ
  scene : List PathElem
  nextId : ℕ
deriving DecidableEq, Repr

/-- viewBox width, fixed to 1000 in the script. -/
def vbWidth : ℚ := 1000

/-- viewBox height, fixed to 600 in the script. -/
def vbHeight : ℚ := 600

/-- `getSvgPoint`: convert pointer coordinates to SVG coordinates using the
bounding box and the viewBox transform. -/
def getSvgPoint (rect : Rect) (ev : PointerEvent) : Point :=
  { x := (ev.clientX - rect.left) / rect.width * vbWidth
    y := (ev.clientY - rect.top) / rect.height * vbHeight }

/-- `setAttribute` on the path with a given identity: rewrite that element of
the scene in place. -/
def updateElem (scene : List PathElem) (i : ℕ) (f : PathElem → PathElem) :
    List PathElem :=
  scene.map fun e => if e.id = i then f e else e

/-- `removeChild`: drop the element with the given identity from the scene. -/
def removeElem (scene : List PathElem) (i : ℕ) : List PathElem :=
  scene.filter fun e => e.id != i

/-- Look up the element with a given identity in the scene. -/
def findElem (scene : List PathElem) (i : ℕ) : Option PathElem :=
  scene.find? fun e => e.id == i

/-- `beginStroke`: on pointer-down, unless a mouse event with a non-left
button, start drawing: record the mapped start point, create a fresh path
with the current control attributes and `d = M p`, and append it to the
`#strokes` group. -/
def beginStroke (env : Env) (ev : PointerEvent) (s : DrawState) : DrawState :=
  if ev.pointerType = "mouse" ∧ ev.button ≠ 0 then s
  else
    let p := getSvgPoint env.rect ev
    { drawing := true
      currentPath := some s.nextId
      currentPoints := [p]
      strokeHistory := s.strokeHistory
      scene := s.scene ++ [⟨s.nextId, env.color, env.width, [PathCmd.M p]⟩]
      nextId := s.nextId + 1 }

/-- The midpoint the smoothing loop computes from two consecutive points. -/
def midPoint (a b : Point) : Point :=
  ⟨(a.x + b.x) / 2, (a.y + b.y) / 2⟩

/-- The body of the smoothing loop in `continueStroke`: for each interior
point (each point of the tail that still has a successor) emit
`Q point (midpoint point next)`. -/
def smoothQuads : List Point → List PathCmd
  | p1 :: p2 :: rest =>
      PathCmd.Q p1 (midPoint p1 p2) :: smoothQuads (p2 :: rest)
  | _ => []

/-- The full rebuilt `d` of the smoothing branch of `continueStroke`:
`M` to the first point, the quadratic chain over the tail, then a final
straight line to the last recorded point. -/
def smoothD : List Point → List PathCmd
  | [] => []
  | p0 :: rest =>
      PathCmd.M p0 :: (smoothQuads rest ++ [PathCmd.L (rest.getLastD p0)])

/-- `continueStroke`: on pointer-move while drawing, push the mapped point;
with fewer than 3 recorded points append a straight `L` segment to the
existing `d`, otherwise rebuild `d` from scratch as the smoothed curve. -/
def continueStroke (env : Env) (ev : PointerEvent) (s : DrawState) :
    DrawState :=
  match s.currentPath with
  | none => s
  | some i =>
    if s.drawing then
      let p := getSvgPoint env.rect ev
      let pts := s.currentPoints ++ [p]
      if pts.length < 3 then
        { s with
          currentPoints := pts
          scene := updateElem s.scene i fun e =>
            { e with d := e.d ++ [PathCmd.L p] } }
      else
        { s with
          currentPoints := pts
          scene := updateElem s.scene i fun e => { e with d := smoothD pts } }
    else s

/-- `endStroke`: on pointer-up/cancel while drawing, stop drawing (the
pointer-capture release is a try/catch with no state effect).  A path with
fewer than 2 recorded points is removed from the scene and never committed;
otherwise its `stroke` and `stroke-width` are overwritten from the current
control values and it is pushed onto the stroke history. -/
def endStroke (env : Env) (_ev : PointerEvent) (s : DrawState) : DrawState :=
  if s.drawing then
    match s.currentPath with
    | none => { s with drawing := false }
    | some i =>
      if s.currentPoints.length < 2 then
        { s with
          drawing := false
          scene := removeElem s.scene i
          currentPath := none
          currentPoints := [] }
      else
        { s with
          drawing := false
          scene := updateElem s.scene i fun e =>
            { e with stroke := env.color, strokeWidth := env.width }
          strokeHistory := s.strokeHistory ++ [i]
          currentPath := none
          currentPoints := [] }
  else s

/-- `undoLast`: pop the most recent identity from the stroke history and, if
that element is still in the document, remove it from the scene.  On an
empty history `pop` yields `undefined` and nothing happens. -/
def undoLast (s : DrawState) : DrawState :=
  match s.strokeHistory.getLast? with
  | none => s
  | some i =>
      { s with
        strokeHistory := s.strokeHistory.dropLast
        scene := removeElem s.scene i }

/-- `clearAll`: reset the stroke history to empty and remove every child of
the `#strokes` group. -/
def clearAll (s : DrawState) : DrawState :=
  { s with strokeHistory := [], scene := [] }

/-- Observable steps performed by the export callbacks of `saveAsPng`. -/
inductive ExportAction where
  | fillWhiteBackground (w h : ℚ)
  | drawImage (w h : ℚ)
  | revokeUrl
  | downloadFile
  | alertNotice (msg : String)
deriving DecidableEq, Repr

/-- Whether the off-screen render of the serialized scene succeeds
(`img.onload`) or fails (`img.onerror`). -/
inductive LoadOutcome where
  | loaded
  | errored
deriving DecidableEq, Repr

/-- The `img.onload` callback of `saveAsPng`: paint a white background sized
to the viewBox, draw the rendered scene over it, revoke the object URL, and
trigger the PNG download. -/
def onloadActions : List ExportAction :=
  [ExportAction.fillWhiteBackground vbWidth vbHeight,
   ExportAction.drawImage vbWidth vbHeight,
   ExportAction.revokeUrl,
   ExportAction.downloadFile]

/-- The `img.onerror` callback of `saveAsPng`: revoke the object URL and
raise a blocking alert; no download is triggered. -/
def onerrorActions : List ExportAction :=
  [ExportAction.revokeUrl,
   ExportAction.alertNotice
     "Could not save image — this may be blocked by browser in some environments."]

/-- `saveAsPng`: serialize a clone of the SVG and render it off-screen; the
drawing state is untouched, and exactly one of the two callbacks runs,
determined by whether the render succeeds. -/
def saveAsPng (outcome : LoadOutcome) (s : DrawState) :
    DrawState × List ExportAction :=
  match outcome with
  | LoadOutcome.loaded => (s, onloadActions)
  | LoadOutcome.errored => (s, onerrorActions)

/-- A whole drag gesture: a pointer-down, a list of pointer-moves (each with
the environment current at that moment, since the controls may change
mid-gesture), and a pointer-up/cancel. -/
def processMoves (moves : List (Env × PointerEvent)) (s : DrawState) :
    DrawState :=
  moves.foldl (fun st m => continueStroke m.1 m.2 st) s

/-- Run a full gesture: `beginStroke`, then every move, then `endStroke`. -/
def runGesture (envDown : Env) (down : PointerEvent)
    (moves : List (Env × PointerEvent)) (envUp : Env) (up : PointerEvent)
    (s : DrawState) : DrawState :=
  endStroke envUp up (processMoves moves (beginStroke envDown down s))

/-- The mapped sample points a gesture records: the down-event point followed
by one point per move event. -/
def sampleList (envDown : Env) (down : PointerEvent)
    (moves : List (Env × PointerEvent)) : List Point :=
  getSvgPoint envDown.rect down :: moves.map fun m => getSvgPoint m.1.rect m.2

/-- The `d` attribute the script has built once the active stroke has
recorded exactly the given nonempty point list: `M` to the first point plus
incremental `L` segments while fewer than 3 points, the rebuilt smoothed
curve from 3 points on. -/
def dOf : List Point → List PathCmd
  | [] => []
  | p0 :: rest =>
      if rest.length < 2 then PathCmd.M p0 :: rest.map PathCmd.L
      else smoothD (p0 :: rest)

/-- The sample behind each path command: the target of `M`/`L`, the control
point of `Q`. -/
def cmdPoint : PathCmd → Point
  | PathCmd.M p => p
  | PathCmd.L p => p
  | PathCmd.Q c _ => c

/-- Recover the recorded samples from a built `d` attribute. -/
def samplePoints (d : List PathCmd) : List Point :=
  d.map cmdPoint

/-- Default point for positional indexing in specification statements. -/
def origin : Point := ⟨0, 0⟩

/-- No element of the scene already uses the identity the next created path
will get (DOM nodes are distinct objects; fresh identities model that). -/
def sceneFresh (s : DrawState) : Prop :=
  ∀ e ∈ s.scene, e.id ≠ s.nextId

/-- Curve construction exactly as the specification words it (§4.3), for
comparison with the code's incremental construction: 0–1 points nothing to
draw; exactly 2 points a straight line segment; at least 3 points a chain of
quadratic segments whose control point is each interior point `P[i]` and
whose endpoint is the midpoint of `P[i]` and `P[i+1]`, followed by a final
straight segment to the true last recorded point. -/
def specCurve (pts : List Point) : List PathCmd :=
  if pts.length ≤ 1 then []
  else if pts.length = 2 then
    [PathCmd.M (pts.getD 0 origin), PathCmd.L (pts.getD 1 origin)]
  else
    PathCmd.M (pts.getD 0 origin) ::
      (((List.range (pts.length - 2)).map fun j =>
          PathCmd.Q (pts.getD (j + 1) origin)
            (midPoint (pts.getD (j + 1) origin) (pts.getD (j + 2) origin)))
        ++ [PathCmd.L (pts.getD (pts.length - 1) origin)])

/-- A bounding box placing the canvas at the origin at its natural 1000×600
size, so the identity mapping applies. -/
def rect0 : Rect := ⟨0, 0, 1000, 600⟩

/-- Controls as at stroke start in the concrete scenario. -/
def env0 : Env := ⟨rect0, "#000000", "4"⟩

/-- Controls changed mid-gesture, read at release in the concrete
scenario. -/
def env1 : Env := ⟨rect0, "#ff0000", "7"⟩

/-- Concrete pointer-down: left mouse button at the origin. -/
def evDown : PointerEvent := ⟨"mouse", 0, 0, 0⟩

/-- Concrete first move sample. -/
def evM1 : PointerEvent := ⟨"mouse", 0, 5, 5⟩

/-- Concrete second move sample. -/
def evM2 : PointerEvent := ⟨"mouse", 0, 10, 0⟩

/-- Concrete pointer-up. -/
def evUp : PointerEvent := ⟨"mouse", 0, 10, 0⟩

/-- The initial state of the script: not drawing, no active path, empty
history, empty scene. -/
def s0 : DrawState := ⟨false, none, [], [], [], 0⟩

/-- The two concrete move samples of the scenario, with their controls. -/
def moves2 : List (Env × PointerEvent) := [(env0, evM1), (env0, evM2)]

/-- A committed two-point path element for concrete history states. -/
def elemA : PathElem :=
  ⟨0, "#000000", "4", [PathCmd.M origin, PathCmd.L ⟨5, 5⟩]⟩

/-- A state with one committed stroke in history and scene. -/
def s1 : DrawState := ⟨false, none, [], [0], [elemA], 1⟩

/-- A mid-gesture state: drawing, with `elemA` as the active path. -/
def s2mid : DrawState := ⟨true, some 0, [origin, ⟨5, 5⟩], [], [elemA], 1⟩

/-- Rewriting the element with a fresh identity only touches the appended
element. -/
lemma updateElem_append (front : List PathElem) (e : PathElem) (i : ℕ)
    (f : PathElem → PathElem) (hfr : ∀ x ∈ front, x.id ≠ i) (he : e.id = i) :
    updateElem (front ++ [e]) i f = front ++ [f e] := by
  unfold updateElem
  rw [List.map_append]
  congr 1
  · calc front.map (fun x => if x.id = i then f x else x)
        = front.map id := List.map_congr_left fun a ha => by simp [hfr a ha]
      _ = front := List.map_id front
  · simp [he]

/-- Removing the element with a fresh identity only drops the appended
element. -/
lemma removeElem_append (front : List PathElem) (e : PathElem) (i : ℕ)
    (hfr : ∀ x ∈ front, x.id ≠ i) (he : e.id = i) :
    removeElem (front ++ [e]) i = front := by
  unfold removeElem
  rw [List.filter_append]
  have h1 : front.filter (fun x => x.id != i) = front :=
    List.filter_eq_self.mpr fun a ha => by simp [hfr a ha]
  simp [h1, he]

/-- Looking up a fresh identity finds the appended element. -/
lemma findElem_append (front : List PathElem) (e : PathElem) (i : ℕ)
    (hfr : ∀ x ∈ front, x.id ≠ i) (he : e.id = i) :
    findElem (front ++ [e]) i = some e := by
  unfold findElem
  rw [List.find?_append]
  have h1 : front.find? (fun x => x.id == i) = none :=
    List.find?_eq_none.mpr fun a ha => by simp [hfr a ha]
  simp [h1, he]

/-- With at least 3 recorded points the built `d` is the rebuilt smoothed
curve. -/
lemma dOf_eq_smoothD (pts : List Point) (h : 3 ≤ pts.length) :
    dOf pts = smoothD pts := by
  cases pts with
  | nil => simp at h
  | cons p0 rest =>
    cases rest with
    | nil => simp at h
    | cons p1 rest' =>
      cases rest' with
      | nil => simp at h
      | cons p2 rest'' => rfl

/-- One `continueStroke` step in closed form: while drawing with a nonempty
recorded point list and the active path as the last scene element, the step
appends the mapped point and rebuilds that element's `d` to `dOf` of the
longer list. -/
lemma continueStroke_closed (env : Env) (ev : PointerEvent)
    (front : List PathElem) (i : ℕ) (c w : String) (pts : List Point)
    (hist : List ℕ) (nid : ℕ)
    (hpts : pts ≠ []) (hfr : ∀ x ∈ front, x.id ≠ i) :
    continueStroke env ev
      ⟨true, some i, pts, hist, front ++ [⟨i, c, w, dOf pts⟩], nid⟩ =
      ⟨true, some i, pts ++ [getSvgPoint env.rect ev], hist,
        front ++ [⟨i, c, w, dOf (pts ++ [getSvgPoint env.rect ev])⟩],
        nid⟩ := by
  obtain ⟨p0, rest, rfl⟩ := List.exists_cons_of_ne_nil hpts
  cases rest with
  | nil =>
      simp only [continueStroke, if_true]
      rw [if_pos (by simp)]
      rw [updateElem_append front _ i _ hfr rfl]
      simp [dOf]
  | cons p1 rest' =>
      simp only [continueStroke, if_true]
      rw [if_neg (by simp)]
      rw [updateElem_append front _ i _ hfr rfl]
      rw [dOf_eq_smoothD ((p0 :: p1 :: rest') ++ [getSvgPoint env.rect ev])
        (by simp [List.length_append])]

/-- Folding `continueStroke` over a list of moves, in closed form. -/
lemma processMoves_closed (moves : List (Env × PointerEvent))
    (front : List PathElem) (i : ℕ) (c w : String) (pts : List Point)
    (hist : List ℕ) (nid : ℕ)
    (hpts : pts ≠ []) (hfr : ∀ x ∈ front, x.id ≠ i) :
    processMoves moves
      ⟨true, some i, pts, hist, front ++ [⟨i, c, w, dOf pts⟩], nid⟩ =
      ⟨true, some i, pts ++ moves.map (fun m => getSvgPoint m.1.rect m.2),
        hist,
        front ++ [⟨i, c, w,
          dOf (pts ++ moves.map fun m => getSvgPoint m.1.rect m.2)⟩],
        nid⟩ := by
  induction moves generalizing pts with
  | nil => simp [processMoves]
  | cons m ms ih =>
      have h1 := continueStroke_closed m.1 m.2 front i c w pts hist nid hpts hfr
      show processMoves ms (continueStroke m.1 m.2 _) = _
      rw [h1, ih (pts ++ [getSvgPoint m.1.rect m.2]) (by simp)]
      simp

/-- State after `beginStroke` and all the moves of a gesture: drawing, with
the fresh path last in the scene carrying the start-time attributes and the
`d` built from all recorded samples. -/
lemma gestureState (envDown : Env) (down : PointerEvent)
    (moves : List (Env × PointerEvent)) (s : DrawState)
    (hb : ¬(down.pointerType = "mouse" ∧ down.button ≠ 0))
    (hf : sceneFresh s) :
    processMoves moves (beginStroke envDown down s) =
      ⟨true, some s.nextId, sampleList envDown down moves, s.strokeHistory,
        s.scene ++ [⟨s.nextId, envDown.color, envDown.width,
          dOf (sampleList envDown down moves)⟩], s.nextId + 1⟩ := by
  have hbegin : beginStroke envDown down s =
      ⟨true, some s.nextId, [getSvgPoint envDown.rect down], s.strokeHistory,
        s.scene ++ [⟨s.nextId, envDown.color, envDown.width,
          dOf [getSvgPoint envDown.rect down]⟩], s.nextId + 1⟩ := by
    simp [beginStroke, hb, dOf]
  rw [hbegin,
    processMoves_closed moves s.scene s.nextId envDown.color envDown.width
      [getSvgPoint envDown.rect down] s.strokeHistory (s.nextId + 1)
      (by simp) hf]
  simp [sampleList]

/-- `endStroke` on a gesture that recorded at least 2 points, in closed
form: the active path's attributes are overwritten from the release-time
controls and its identity is pushed onto the history. -/
lemma endStroke_commit (env : Env) (ev : PointerEvent)
    (front : List PathElem) (i : ℕ) (c w : String) (d : List PathCmd)
    (pts : List Point) (hist : List ℕ) (nid : ℕ)
    (h2 : 2 ≤ pts.length) (hfr : ∀ x ∈ front, x.id ≠ i) :
    endStroke env ev ⟨true, some i, pts, hist, front ++ [⟨i, c, w, d⟩], nid⟩ =
      ⟨false, none, [], hist ++ [i],
        front ++ [⟨i, env.color, env.width, d⟩], nid⟩ := by
  have h2' : ¬pts.length < 2 := Nat.not_lt.mpr h2
  simp only [endStroke, if_true]
  rw [if_neg h2']
  rw [updateElem_append front _ i _ hfr rfl]

/-- `endStroke` on a gesture that recorded fewer than 2 points, in closed
form: the active path is removed from the scene and the history is
untouched. -/
lemma endStroke_discard (env : Env) (ev : PointerEvent)
    (front : List PathElem) (i : ℕ) (c w : String) (d : List PathCmd)
    (pts : List Point) (hist : List ℕ) (nid : ℕ)
    (h1 : pts.length < 2) (hfr : ∀ x ∈ front, x.id ≠ i) :
    endStroke env ev ⟨true, some i, pts, hist, front ++ [⟨i, c, w, d⟩], nid⟩ =
      ⟨false, none, [], hist, front, nid⟩ := by
  simp only [endStroke, if_true]
  rw [if_pos h1]
  rw [removeElem_append front _ i hfr rfl]

/-- `getLastD` is `getLast` on a nonempty list. -/
lemma getLastD_eq_getLast (l : List Point) (a : Point) (hl : l ≠ []) :
    l.getLastD a = l.getLast hl := by
  rw [List.getLastD_eq_getLast?, List.getLast?_eq_getLast l hl]
  rfl

/-- `getLastD` as positional indexing from the head of the extended list. -/
lemma getLastD_eq_getD (l : List Point) (a : Point) (hl : l ≠ []) :
    l.getLastD a = (a :: l).getD ((a :: l).length - 1) origin := by
  obtain ⟨y, t, rfl⟩ := List.exists_cons_of_ne_nil hl
  rw [getLastD_eq_getLast _ _ hl, List.getLast_eq_getElem]
  simp only [List.length_cons, Nat.add_sub_cancel, List.getD_cons_succ]
  rw [List.getD_eq_getElem]

/-- The smoothing loop as an index formula: one quadratic segment per point
of the list that still has a successor. -/
lemma smoothQuads_formula (l : List Point) :
    smoothQuads l = (List.range (l.length - 1)).map fun j =>
      PathCmd.Q (l.getD j origin)
        (midPoint (l.getD j origin) (l.getD (j + 1) origin)) := by
  induction l with
  | nil => rfl
  | cons p1 t ih =>
    cases t with
    | nil => rfl
    | cons p2 rest =>
      simp only [smoothQuads]
      rw [ih]
      simp only [List.length_cons, Nat.add_sub_cancel,
        List.range_succ_eq_map, List.map_cons, List.map_map]
      simp [Function.comp, Nat.succ_eq_add_one]

/-- The rebuilt smoothed `d` as an index formula over the whole recorded
point list. -/
lemma smoothD_formula (pts : List Point) (h2 : 2 ≤ pts.length) :
    smoothD pts =
      PathCmd.M (pts.getD 0 origin) ::
        (((List.range (pts.length - 2)).map fun j =>
            PathCmd.Q (pts.getD (j + 1) origin)
              (midPoint (pts.getD (j + 1) origin) (pts.getD (j + 2) origin)))
          ++ [PathCmd.L (pts.getD (pts.length - 1) origin)]) := by
  cases pts with
  | nil => simp at h2
  | cons p0 rest =>
    have hrest : rest ≠ [] := by
      intro h
      subst h
      simp at h2
    have hlen : (p0 :: rest).length - 2 = rest.length - 1 := by
      simp only [List.length_cons]
      omega
    simp only [smoothD]
    rw [smoothQuads_formula, getLastD_eq_getD rest p0 hrest, hlen]
    simp only [List.getD_cons_zero, List.getD_cons_succ]

/-- Recovering the samples behind the smoothing loop yields every point of
the tail except the last. -/
lemma samplePoints_smoothQuads (l : List Point) :
    samplePoints (smoothQuads l) = l.dropLast := by
  induction l with
  | nil => rfl
  | cons p1 t ih =>
    cases t with
    | nil => rfl
    | cons p2 rest =>
      simp only [smoothQuads, samplePoints, List.map_cons] at ih ⊢
      rw [ih]
      simp [cmdPoint, List.dropLast_cons₂]

/-- Every built `d` carries exactly the recorded samples, in order: the
incremental construction and the rebuilt smoothed curve drop nothing. -/
lemma samplePoints_dOf (pts : List Point) :
    samplePoints (dOf pts) = pts := by
  cases pts with
  | nil => rfl
  | cons p0 rest =>
    by_cases h : rest.length < 2
    · simp only [dOf, if_pos h]
      simp only [samplePoints, List.map_cons, List.map_map, cmdPoint]
      have hmap : List.map (cmdPoint ∘ PathCmd.L) rest = rest :=
        calc List.map (cmdPoint ∘ PathCmd.L) rest
            = List.map id rest := List.map_congr_left fun a _ => rfl
          _ = rest := List.map_id rest
      rw [hmap]
    · have hrest : rest ≠ [] := by
        intro hnil
        subst hnil
        simp at h
      simp only [dOf, if_neg h]
      simp only [smoothD, samplePoints, List.map_cons, List.map_append,
        cmdPoint, List.map_cons]
      have hq := samplePoints_smoothQuads rest
      simp only [samplePoints] at hq
      rw [hq, getLastD_eq_getLast rest p0 hrest]
      simp [List.dropLast_append_getLast hrest]

/-- With at least 2 recorded points, the `d` the code builds coincides with
the curve the specification prescribes. -/
lemma dOf_eq_specCurve (pts : List Point) (h2 : 2 ≤ pts.length) :
    dOf pts = specCurve pts := by
  cases pts with
  | nil => simp at h2
  | cons p0 rest =>
    cases rest with
    | nil => simp at h2
    | cons p1 rest' =>
      cases rest' with
      | nil =>
          simp [dOf, specCurve]
      | cons p2 rest'' =>
          have h3 : 3 ≤ (p0 :: p1 :: p2 :: rest'').length := by simp
          rw [dOf_eq_smoothD (p0 :: p1 :: p2 :: rest'') h3,
            smoothD_formula (p0 :: p1 :: p2 :: rest'') (by simp)]
          unfold specCurve
          rw [if_neg (by simp), if_neg (by simp)]

/-- C1: for an active stroke whose recorded point list has n ≥ 3 points
(a pointer-down plus at least 2 move samples), the rendered path is a move
to `P[0]`, then for each interior point `P[i]` (i = 1 .. n-2) a quadratic
segment with control point `P[i]` and endpoint the midpoint of `P[i]` and
`P[i+1]`, followed by a final straight line segment to `P[n-1]`, so the
curve ends exactly at the most recent sample. -/
theorem active_stroke_smoothing (envDown : Env) (down : PointerEvent)
    (moves : List (Env × PointerEvent)) (s : DrawState)
    (hb : ¬(down.pointerType = "mouse" ∧ down.button ≠ 0))
    (hf : sceneFresh s) (hm : 2 ≤ moves.length) :
    3 ≤ (sampleList envDown down moves).length ∧
    (processMoves moves (beginStroke envDown down s)).currentPoints
        = sampleList envDown down moves ∧
    findElem (processMoves moves (beginStroke envDown down s)).scene s.nextId
      = some ⟨s.nextId, envDown.color, envDown.width,
          PathCmd.M ((sampleList envDown down moves).getD 0 origin) ::
            (((List.range ((sampleList envDown down moves).length - 2)).map
                fun j =>
                  PathCmd.Q
                    ((sampleList envDown down moves).getD (j + 1) origin)
                    (midPoint
                      ((sampleList envDown down moves).getD (j + 1) origin)
                      ((sampleList envDown down moves).getD (j + 2) origin)))
              ++ [PathCmd.L ((sampleList envDown down moves).getD
                    ((sampleList envDown down moves).length - 1) origin)])⟩ := by
  have hlen : 3 ≤ (sampleList envDown down moves).length := by
    simp only [sampleList, List.length_cons, List.length_map]
    omega
  rw [gestureState envDown down moves s hb hf]
  refine ⟨hlen, rfl, ?_⟩
  rw [findElem_append s.scene
    ⟨s.nextId, envDown.color, envDown.width,
      dOf (sampleList envDown down moves)⟩ s.nextId hf rfl]
  rw [dOf_eq_smoothD (sampleList envDown down moves) hlen,
    smoothD_formula (sampleList envDown down moves)
      (le_trans (by norm_num) hlen)]

/-- C2: a gesture that records at least 2 samples (the pointer-down plus at
least one move) appends exactly one stroke to the history, and its geometry
carries exactly the recorded samples in order — one per sample received,
none dropped or decimated. -/
theorem gesture_commits_one_stroke (envDown : Env) (down : PointerEvent)
    (moves : List (Env × PointerEvent)) (envUp : Env) (up : PointerEvent)
    (s : DrawState)
    (hb : ¬(down.pointerType = "mouse" ∧ down.button ≠ 0))
    (hf : sceneFresh s) (hm : moves ≠ []) :
    (runGesture envDown down moves envUp up s).strokeHistory
        = s.strokeHistory ++ [s.nextId] ∧
    ∃ e, findElem (runGesture envDown down moves envUp up s).scene s.nextId
          = some e ∧
        samplePoints e.d = sampleList envDown down moves ∧
        (samplePoints e.d).length = 1 + moves.length := by
  have h2 : 2 ≤ (sampleList envDown down moves).length := by
    have hpos : 0 < moves.length := List.length_pos.mpr hm
    simp only [sampleList, List.length_cons, List.length_map]
    omega
  unfold runGesture
  rw [gestureState envDown down moves s hb hf]
  rw [endStroke_commit envUp up s.scene s.nextId envDown.color envDown.width
    (dOf (sampleList envDown down moves)) (sampleList envDown down moves)
    s.strokeHistory (s.nextId + 1) h2 hf]
  refine ⟨rfl, ⟨s.nextId, envUp.color, envUp.width,
    dOf (sampleList envDown down moves)⟩, ?_, ?_, ?_⟩
  · exact findElem_append s.scene _ s.nextId hf rfl
  · exact samplePoints_dOf (sampleList envDown down moves)
  · rw [samplePoints_dOf (sampleList envDown down moves)]
    simp only [sampleList, List.length_cons, List.length_map]
    omega

/-- C3: a gesture that records fewer than 2 samples (a bare tap) has its
path removed from the scene and leaves the stroke history unchanged; and
after any gesture, every stroke in the history is either an old one or
carries at least 2 recorded points, so the history invariant holds. -/
theorem short_gesture_discarded (envDown : Env) (down : PointerEvent)
    (envUp : Env) (up : PointerEvent) (s : DrawState)
    (hb : ¬(down.pointerType = "mouse" ∧ down.button ≠ 0))
    (hf : sceneFresh s) :
    ((runGesture envDown down [] envUp up s).strokeHistory = s.strokeHistory ∧
      (runGesture envDown down [] envUp up s).scene = s.scene) ∧
    ∀ (moves : List (Env × PointerEvent)) (i : ℕ),
      i ∈ (runGesture envDown down moves envUp up s).strokeHistory →
      i ∈ s.strokeHistory ∨
      ∃ e, findElem (runGesture envDown down moves envUp up s).scene i
            = some e ∧ 2 ≤ (samplePoints e.d).length := by
  have htap : runGesture envDown down [] envUp up s =
      ⟨false, none, [], s.strokeHistory, s.scene, s.nextId + 1⟩ := by
    unfold runGesture
    rw [gestureState envDown down [] s hb hf]
    exact endStroke_discard envUp up s.scene s.nextId envDown.color
      envDown.width (dOf (sampleList envDown down [])) _ s.strokeHistory
      (s.nextId + 1) (by simp [sampleList]) hf
  refine ⟨by rw [htap]; exact ⟨rfl, rfl⟩, ?_⟩
  intro moves i hi
  cases moves with
  | nil =>
      rw [htap] at hi
      exact Or.inl hi
  | cons m ms =>
      have h2 : 2 ≤ (sampleList envDown down (m :: ms)).length := by
        simp only [sampleList, List.length_cons, List.length_map]
        omega
      have hrun : runGesture envDown down (m :: ms) envUp up s =
          ⟨false, none, [], s.strokeHistory ++ [s.nextId],
            s.scene ++ [⟨s.nextId, envUp.color, envUp.width,
              dOf (sampleList envDown down (m :: ms))⟩], s.nextId + 1⟩ := by
        unfold runGesture
        rw [gestureState envDown down (m :: ms) s hb hf]
        exact endStroke_commit envUp up s.scene s.nextId envDown.color
          envDown.width (dOf (sampleList envDown down (m :: ms)))
          (sampleList envDown down (m :: ms)) s.strokeHistory
          (s.nextId + 1) h2 hf
      rw [hrun] at hi
      rcases List.mem_append.mp hi with hold | hnew
      · exact Or.inl hold
      · have hie : i = s.nextId := by simpa using hnew
        subst hie
        refine Or.inr ⟨⟨s.nextId, envUp.color, envUp.width,
          dOf (sampleList envDown down (m :: ms))⟩, ?_, ?_⟩
        · rw [hrun]
          exact findElem_append s.scene _ s.nextId hf rfl
        · rw [samplePoints_dOf (sampleList envDown down (m :: ms))]
          exact h2

/-- C4: after every move sample, the rendered geometry of the active stroke
equals the from-scratch recomputation over the entire recorded point list
that the specification prescribes (0–1 points nothing, 2 points a straight
segment, ≥ 3 points the quadratic chain): the incremental line-append for
fewer than 3 points refines the from-scratch rule. -/
theorem move_rendering_refines_spec (envDown : Env) (down : PointerEvent)
    (moves : List (Env × PointerEvent)) (s : DrawState)
    (hb : ¬(down.pointerType = "mouse" ∧ down.button ≠ 0))
    (hf : sceneFresh s) (hm : moves ≠ []) :
    findElem (processMoves moves (beginStroke envDown down s)).scene s.nextId
      = some ⟨s.nextId, envDown.color, envDown.width,
          specCurve
            ((processMoves moves
              (beginStroke envDown down s)).currentPoints)⟩ := by
  have h2 : 2 ≤ (sampleList envDown down moves).length := by
    have hpos : 0 < moves.length := List.length_pos.mpr hm
    simp only [sampleList, List.length_cons, List.length_map]
    omega
  rw [gestureState envDown down moves s hb hf]
  rw [findElem_append s.scene
    ⟨s.nextId, envDown.color, envDown.width,
      dOf (sampleList envDown down moves)⟩ s.nextId hf rfl]
  rw [dOf_eq_specCurve (sampleList envDown down moves) h2]

/-- C5: undo on a non-empty history removes exactly the most recently
committed stroke (length drops by exactly 1) and removes its rendered
geometry from the scene while keeping every other element; undo on an empty
history leaves the state unchanged and raises no error. -/
theorem undo_spec (s : DrawState) (i : ℕ) :
    (s.strokeHistory = [] → undoLast s = s) ∧
    (s.strokeHistory.getLast? = some i →
      (undoLast s).strokeHistory = s.strokeHistory.dropLast ∧
      (undoLast s).strokeHistory.length + 1 = s.strokeHistory.length ∧
      (∀ e ∈ (undoLast s).scene, e.id ≠ i) ∧
      (∀ e ∈ s.scene, e.id ≠ i → e ∈ (undoLast s).scene)) := by
  constructor
  · intro h
    simp [undoLast, h]
  · intro h
    have hne : s.strokeHistory ≠ [] := by
      intro h0
      rw [h0] at h
      simp at h
    have hpos : 0 < s.strokeHistory.length := List.length_pos.mpr hne
    have hu : undoLast s =
        { s with strokeHistory := s.strokeHistory.dropLast,
                 scene := removeElem s.scene i } := by
      simp only [undoLast, h]
    rw [hu]
    refine ⟨rfl, ?_, ?_, ?_⟩
    · rw [List.length_dropLast]
      omega
    · intro e he
      simp only [removeElem, List.mem_filter, bne_iff_ne, ne_eq] at he
      exact he.2
    · intro e he hne2
      simp only [removeElem, List.mem_filter, bne_iff_ne, ne_eq]
      exact ⟨he, hne2⟩

/-- C6: clear always leaves the stroke history empty and removes all
rendered stroke geometry from the scene, whatever the prior state. -/
theorem clear_spec (s : DrawState) :
    (clearAll s).strokeHistory = [] ∧ (clearAll s).scene = [] :=
  ⟨rfl, rfl⟩

/-- C7: the coordinate mapping is exactly
`((x - box.left) / box.width * 1000, (y - box.top) / box.height * 600)`,
it is linear in the screen-space delta, and doubling the box width halves
the mapped x-delta for a fixed screen-space x-delta. -/
theorem coordinate_mapping_spec (rect : Rect) (e1 e2 : PointerEvent)
    (hw : 0 < rect.width) (_hh : 0 < rect.height) :
    getSvgPoint rect e1 =
      ⟨(e1.clientX - rect.left) / rect.width * 1000,
       (e1.clientY - rect.top) / rect.height * 600⟩ ∧
    (getSvgPoint rect e2).x - (getSvgPoint rect e1).x
        = (e2.clientX - e1.clientX) / rect.width * 1000 ∧
    (getSvgPoint { rect with width := 2 * rect.width } e2).x
        - (getSvgPoint { rect with width := 2 * rect.width } e1).x
        = ((getSvgPoint rect e2).x - (getSvgPoint rect e1).x) / 2 := by
  have hw' : rect.width ≠ 0 := ne_of_gt hw
  refine ⟨rfl, ?_, ?_⟩
  · show (e2.clientX - rect.left) / rect.width * vbWidth -
        (e1.clientX - rect.left) / rect.width * vbWidth
      = (e2.clientX - e1.clientX) / rect.width * 1000
    unfold vbWidth
    field_simp
    ring
  · show (e2.clientX - rect.left) / (2 * rect.width) * vbWidth -
        (e1.clientX - rect.left) / (2 * rect.width) * vbWidth
      = ((e2.clientX - rect.left) / rect.width * vbWidth -
          (e1.clientX - rect.left) / rect.width * vbWidth) / 2
    simp only [div_eq_mul_inv, mul_inv]
    ring

/-- C8: a committed stroke's final color and width equal the control values
at the moment of release, not the values at stroke start: the release
handler overwrites both attributes before appending to the history. -/
theorem commit_uses_release_attributes (envDown : Env) (down : PointerEvent)
    (moves : List (Env × PointerEvent)) (envUp : Env) (up : PointerEvent)
    (s : DrawState)
    (hb : ¬(down.pointerType = "mouse" ∧ down.button ≠ 0))
    (hf : sceneFresh s) (hm : moves ≠ []) :
    ∃ e, findElem (runGesture envDown down moves envUp up s).scene s.nextId
          = some e ∧
        e.stroke = envUp.color ∧ e.strokeWidth = envUp.width ∧
        (runGesture envDown down moves envUp up s).strokeHistory
          = s.strokeHistory ++ [s.nextId] := by
  have h2 : 2 ≤ (sampleList envDown down moves).length := by
    have hpos : 0 < moves.length := List.length_pos.mpr hm
    simp only [sampleList, List.length_cons, List.length_map]
    omega
  unfold runGesture
  rw [gestureState envDown down moves s hb hf]
  rw [endStroke_commit envUp up s.scene s.nextId envDown.color envDown.width
    (dOf (sampleList envDown down moves)) (sampleList envDown down moves)
    s.strokeHistory (s.nextId + 1) h2 hf]
  exact ⟨⟨s.nextId, envUp.color, envUp.width,
      dOf (sampleList envDown down moves)⟩,
    findElem_append s.scene _ s.nextId hf rfl, rfl, rfl, rfl⟩

/-- C9: if rendering the serialized scene fails during raster export, a
blocking notice is raised and no download is triggered; the download runs
only in the success path; and export leaves the drawing state unchanged in
both cases. -/
theorem export_error_handling (s : DrawState) :
    (saveAsPng LoadOutcome.errored s).1 = s ∧
    (saveAsPng LoadOutcome.loaded s).1 = s ∧
    ExportAction.downloadFile ∉ (saveAsPng LoadOutcome.errored s).2 ∧
    (∃ m, ExportAction.alertNotice m ∈ (saveAsPng LoadOutcome.errored s).2) ∧
    ExportAction.downloadFile ∈ (saveAsPng LoadOutcome.loaded s).2 ∧
    (∀ m, ExportAction.alertNotice m ∉ (saveAsPng LoadOutcome.loaded s).2) := by
  refine ⟨rfl, rfl, ?_, ?_, ?_, ?_⟩
  · simp [saveAsPng, onerrorActions]
  · exact ⟨"Could not save image — this may be blocked by browser in some environments.",
      by simp [saveAsPng, onerrorActions]⟩
  · simp [saveAsPng, onloadActions]
  · intro m
    simp [saveAsPng, onloadActions]

/-- C10: a pointer-down passing the button filter while a stroke is already
in progress abandons the previously active path: it stays in the scene but
is never appended to the history (the gesture can only ever commit the new
fresh identity), its recorded points are discarded, and a fresh active
stroke starts from the new event's position. -/
theorem pointer_down_while_drawing (env : Env) (ev : PointerEvent)
    (s : DrawState) (oldId : ℕ)
    (_hd : s.drawing = true) (_hc : s.currentPath = some oldId)
    (hold : oldId < s.nextId)
    (hb : ¬(ev.pointerType = "mouse" ∧ ev.button ≠ 0))
    (hf : sceneFresh s) :
    (beginStroke env ev s).currentPath = some s.nextId ∧
    s.nextId ≠ oldId ∧
    (beginStroke env ev s).currentPoints = [getSvgPoint env.rect ev] ∧
    (beginStroke env ev s).strokeHistory = s.strokeHistory ∧
    (∀ e ∈ s.scene, e ∈ (beginStroke env ev s).scene) ∧
    ∀ (moves : List (Env × PointerEvent)) (envUp : Env) (up : PointerEvent),
      (runGesture env ev moves envUp up s).strokeHistory = s.strokeHistory ∨
      (runGesture env ev moves envUp up s).strokeHistory
        = s.strokeHistory ++ [s.nextId] := by
  have hbe : beginStroke env ev s =
      ⟨true, some s.nextId, sampleList env ev [], s.strokeHistory,
        s.scene ++ [⟨s.nextId, env.color, env.width,
          dOf (sampleList env ev [])⟩], s.nextId + 1⟩ := by
    have hg := gestureState env ev [] s hb hf
    simpa [processMoves] using hg
  refine ⟨by rw [hbe], Nat.ne_of_gt hold, by rw [hbe]; rfl, by rw [hbe],
    ?_, ?_⟩
  · intro e he
    rw [hbe]
    exact List.mem_append_left _ he
  · intro moves envUp up
    cases moves with
    | nil =>
        left
        unfold runGesture
        rw [gestureState env ev [] s hb hf,
          endStroke_discard envUp up s.scene s.nextId env.color env.width
            (dOf (sampleList env ev [])) _ s.strokeHistory (s.nextId + 1)
            (by simp [sampleList]) hf]
    | cons m ms =>
        right
        have h2 : 2 ≤ (sampleList env ev (m :: ms)).length := by
          simp only [sampleList, List.length_cons, List.length_map]
          omega
        unfold runGesture
        rw [gestureState env ev (m :: ms) s hb hf,
          endStroke_commit envUp up s.scene s.nextId env.color env.width
            (dOf (sampleList env ev (m :: ms)))
            (sampleList env ev (m :: ms)) s.strokeHistory (s.nextId + 1)
            h2 hf]

/-- Witness: the smoothing theorem applied to the concrete 3-sample gesture
(0,0) → (5,5) → (10,0) from the initial state. -/
theorem active_stroke_smoothing_witness :
    3 ≤ (sampleList env0 evDown moves2).length ∧
    (processMoves moves2 (beginStroke env0 evDown s0)).currentPoints
        = sampleList env0 evDown moves2 ∧
    findElem (processMoves moves2 (beginStroke env0 evDown s0)).scene
        s0.nextId
      = some ⟨s0.nextId, env0.color, env0.width,
          PathCmd.M ((sampleList env0 evDown moves2).getD 0 origin) ::
            (((List.range ((sampleList env0 evDown moves2).length - 2)).map
                fun j =>
                  PathCmd.Q
                    ((sampleList env0 evDown moves2).getD (j + 1) origin)
                    (midPoint
                      ((sampleList env0 evDown moves2).getD (j + 1) origin)
                      ((sampleList env0 evDown moves2).getD (j + 2) origin)))
              ++ [PathCmd.L ((sampleList env0 evDown moves2).getD
                    ((sampleList env0 evDown moves2).length - 1) origin)])⟩ :=
  active_stroke_smoothing env0 evDown moves2 s0 (by simp [evDown])
    (by simp [sceneFresh, s0]) (by simp [moves2])

/-- Witness: the commit theorem applied to the concrete 3-sample gesture,
with the controls changed to `env1` before release. -/
theorem gesture_commits_one_stroke_witness :
    (runGesture env0 evDown moves2 env1 evUp s0).strokeHistory
        = s0.strokeHistory ++ [s0.nextId] ∧
    ∃ e, findElem (runGesture env0 evDown moves2 env1 evUp s0).scene
          s0.nextId = some e ∧
        samplePoints e.d = sampleList env0 evDown moves2 ∧
        (samplePoints e.d).length = 1 + moves2.length :=
  gesture_commits_one_stroke env0 evDown moves2 env1 evUp s0
    (by simp [evDown]) (by simp [sceneFresh, s0]) (by simp [moves2])

/-- Witness: the tap theorem applied to a concrete no-move gesture from the
initial state, plus the history invariant checked on the committed stroke
identity of the concrete 3-sample gesture. -/
theorem short_gesture_discarded_witness :
    ((runGesture env0 evDown [] env1 evUp s0).strokeHistory
        = s0.strokeHistory ∧
      (runGesture env0 evDown [] env1 evUp s0).scene = s0.scene) ∧
    (0 ∈ s0.strokeHistory ∨
      ∃ e, findElem (runGesture env0 evDown moves2 env1 evUp s0).scene 0
            = some e ∧ 2 ≤ (samplePoints e.d).length) := by
  have h := short_gesture_discarded env0 evDown env1 evUp s0
    (by simp [evDown]) (by simp [sceneFresh, s0])
  exact ⟨h.1, h.2 moves2 0 (by decide)⟩

/-- Witness: the refinement theorem applied to the concrete 3-sample
gesture from the initial state. -/
theorem move_rendering_refines_spec_witness :
    findElem (processMoves moves2 (beginStroke env0 evDown s0)).scene
        s0.nextId
      = some ⟨s0.nextId, env0.color, env0.width,
          specCurve ((processMoves moves2
            (beginStroke env0 evDown s0)).currentPoints)⟩ :=
  move_rendering_refines_spec env0 evDown moves2 s0 (by simp [evDown])
    (by simp [sceneFresh, s0]) (by simp [moves2])

/-- Witness: undo applied to the concrete empty state and to a concrete
one-stroke history. -/
theorem undo_spec_witness :
    (undoLast s0 = s0) ∧
    ((undoLast s1).strokeHistory = s1.strokeHistory.dropLast ∧
      (undoLast s1).strokeHistory.length + 1 = s1.strokeHistory.length ∧
      (∀ e ∈ (undoLast s1).scene, e.id ≠ 0) ∧
      (∀ e ∈ s1.scene, e.id ≠ 0 → e ∈ (undoLast s1).scene)) :=
  ⟨(undo_spec s0 0).1 rfl, (undo_spec s1 0).2 rfl⟩

/-- Witness: the coordinate-mapping theorem applied to the concrete
1000×600 bounding box at the origin and two concrete events. -/
theorem coordinate_mapping_spec_witness :
    getSvgPoint rect0 evM1 =
      ⟨(evM1.clientX - rect0.left) / rect0.width * 1000,
       (evM1.clientY - rect0.top) / rect0.height * 600⟩ ∧
    (getSvgPoint rect0 evM2).x - (getSvgPoint rect0 evM1).x
        = (evM2.clientX - evM1.clientX) / rect0.width * 1000 ∧
    (getSvgPoint { rect0 with width := 2 * rect0.width } evM2).x
        - (getSvgPoint { rect0 with width := 2 * rect0.width } evM1).x
        = ((getSvgPoint rect0 evM2).x - (getSvgPoint rect0 evM1).x) / 2 :=
  coordinate_mapping_spec rect0 evM1 evM2 (by norm_num [rect0])
    (by norm_num [rect0])

/-- Witness: the release-attribute theorem applied to the concrete gesture
that starts with black width-4 controls and releases with red width-7
controls. -/
theorem commit_uses_release_attributes_witness :
    ∃ e, findElem (runGesture env0 evDown moves2 env1 evUp s0).scene
          s0.nextId = some e ∧
        e.stroke = env1.color ∧ e.strokeWidth = env1.width ∧
        (runGesture env0 evDown moves2 env1 evUp s0).strokeHistory
          = s0.strokeHistory ++ [s0.nextId] :=
  commit_uses_release_attributes env0 evDown moves2 env1 evUp s0
    (by simp [evDown]) (by simp [sceneFresh, s0]) (by simp [moves2])

/-- Witness: the re-entrant pointer-down theorem applied to a concrete
mid-gesture state whose active path has identity 0. -/
theorem pointer_down_while_drawing_witness :
    (beginStroke env1 evDown s2mid).currentPath = some s2mid.nextId ∧
    s2mid.nextId ≠ 0 ∧
    ((runGesture env1 evDown moves2 env1 evUp s2mid).strokeHistory
        = s2mid.strokeHistory ∨
      (runGesture env1 evDown moves2 env1 evUp s2mid).strokeHistory
        = s2mid.strokeHistory ++ [s2mid.nextId]) := by
  have h := pointer_down_while_drawing env1 evDown s2mid 0 rfl rfl
    (by decide) (by simp [evDown]) (by simp [sceneFresh, s2mid, elemA])
  exact ⟨h.1, h.2.1, h.2.2.2.2.2 moves2 env1 evUp⟩

end SvgDraw
